import Mathlib

set_option maxHeartbeats 1000000

/-
Verification of the conversation-orchestrator core of the
E-commerce-Arabic-RAG repository.

Texts are modelled as List Char (Python str), byte payloads as opaque
Nat identifiers, and time as Nat seconds. Each definition is a direct
shallow embedding of the Python function named in its doc comment.
-/

namespace Orch

/-- Python str.strip() whitespace predicate (ASCII whitespace set:
space, tab, newline, carriage return, vertical tab, form feed). -/
def pyIsSpace (c : Char) : Bool :=
  c = ' ' || c = '\t' || c = '\n' || c = '\r' || c = Char.ofNat 11 || c = Char.ofNat 12

/-- Python str.strip(): drop whitespace from both ends. -/
def pyStrip (s : List Char) : List Char :=
  ((s.dropWhile pyIsSpace).reverse.dropWhile pyIsSpace).reverse

/-- The terminator list from both splitters
(Orchestrator/app/services/orchestrator.py line 328 and
rag_client.py line 151): '.', '!', '?', U+061F Arabic question mark,
'!' again, U+06D4 Arabic full stop. -/
def sentence_endings : List Char :=
  ['.', '!', '?', Char.ofNat 0x61F, '!', Char.ofNat 0x6D4]

def isEnding (c : Char) : Bool := sentence_endings.contains c

/-- Inner loop of ConversationSession._split_into_sentences (identical to
RAGClient._split_into_sentences): buf is the accumulated current_sentence;
on a terminator the stripped buffer (terminator included) is appended when
nonempty and the buffer resets; the stripped trailing buffer is appended
when nonempty. -/
def splitAux : List Char → List Char → List (List Char)
  | buf, [] => if pyStrip buf = [] then [] else [pyStrip buf]
  | buf, c :: rest =>
    if isEnding c then
      (if pyStrip (buf ++ [c]) = [] then [] else [pyStrip (buf ++ [c])]) ++ splitAux [] rest
    else
      splitAux (buf ++ [c]) rest

/-- ConversationSession._split_into_sentences / RAGClient._split_into_sentences. -/
def split_into_sentences (text : List Char) : List (List Char) :=
  if text = [] then [] else splitAux [] text

/-- Raw segmentation performed by the same scan, before stripping and
dropping blanks: each segment is the accumulated buffer up to and
including a terminator, plus the trailing buffer as last segment. -/
def rawSegAux : List Char → List Char → List (List Char)
  | buf, [] => [buf]
  | buf, c :: rest =>
    if isEnding c then (buf ++ [c]) :: rawSegAux [] rest
    else rawSegAux (buf ++ [c]) rest

def rawSegments (text : List Char) : List (List Char) := rawSegAux [] text

lemma rawSegAux_ne_nil (text : List Char) : ∀ buf, rawSegAux buf text ≠ [] := by
  induction text with
  | nil => intro buf; simp [rawSegAux]
  | cons c rest ih =>
    intro buf
    by_cases h : isEnding c
    · simp [rawSegAux, h]
    · simpa [rawSegAux, h] using ih (buf ++ [c])

/-- The splitter equals strip-then-drop-blanks over the raw segmentation. -/
lemma splitAux_eq_raw (text : List Char) :
    ∀ buf, splitAux buf text = ((rawSegAux buf text).map pyStrip).filter (· ≠ []) := by
  induction text with
  | nil =>
    intro buf
    by_cases h : pyStrip buf = [] <;> simp [splitAux, rawSegAux, h]
  | cons c rest ih =>
    intro buf
    by_cases h : isEnding c
    · by_cases h2 : pyStrip (buf ++ [c]) = [] <;>
        simp [splitAux, rawSegAux, h, h2, ih]
    · simp [splitAux, rawSegAux, h, ih]

lemma rawSegAux_flatten (text : List Char) :
    ∀ buf, (rawSegAux buf text).flatten = buf ++ text := by
  induction text with
  | nil => intro buf; simp [rawSegAux]
  | cons c rest ih =>
    intro buf
    by_cases h : isEnding c
    · simp [rawSegAux, h, ih]
    · simp [rawSegAux, h, ih (buf ++ [c])]

/-- Well-formedness of a raw segment list: every segment except the last
ends in a terminator preceded only by non-terminators, and the last
segment contains no terminator at all. -/
inductive SegsWF : List (List Char) → Prop
  | last (seg : List Char) (h : ∀ d ∈ seg, isEnding d = false) : SegsWF [seg]
  | cons (u : List Char) (c : Char) (rest : List (List Char))
      (hu : ∀ d ∈ u, isEnding d = false) (hc : isEnding c = true)
      (hrest : SegsWF rest) : SegsWF ((u ++ [c]) :: rest)

lemma rawSegAux_wf (text : List Char) :
    ∀ buf, (∀ d ∈ buf, isEnding d = false) → SegsWF (rawSegAux buf text) := by
  induction text with
  | nil =>
    intro buf hbuf
    exact SegsWF.last buf hbuf
  | cons c rest ih =>
    intro buf hbuf
    by_cases h : isEnding c
    · rw [rawSegAux, if_pos h]
      exact SegsWF.cons buf c _ hbuf h (ih [] (by simp))
    · rw [rawSegAux, if_neg h]
      refine ih (buf ++ [c]) ?_
      intro d hd
      rcases List.mem_append.1 hd with hd | hd
      · exact hbuf d hd
      · simp only [List.mem_singleton] at hd
        subst hd
        simpa using h

lemma rawSegAux_no_ending (text : List Char) (ht : ∀ d ∈ text, isEnding d = false) :
    ∀ buf, rawSegAux buf text = [buf ++ text] := by
  induction text with
  | nil => intro buf; simp [rawSegAux]
  | cons c rest ih =>
    intro buf
    have hc : isEnding c = false := ht c (by simp)
    have hrest : ∀ d ∈ rest, isEnding d = false := fun d hd => ht d (by simp [hd])
    rw [rawSegAux, if_neg (by simp [hc])]
    simp [ih hrest (buf ++ [c])]

lemma rawSegAux_terminated (u : List Char) (e : Char)
    (hu : ∀ d ∈ u, isEnding d = false) (he : isEnding e = true) :
    ∀ buf, rawSegAux buf (u ++ [e]) = [buf ++ u ++ [e], []] := by
  induction u with
  | nil =>
    intro buf
    rw [List.nil_append, rawSegAux, if_pos he]
    simp [rawSegAux]
  | cons d u ih =>
    intro buf
    have hd : isEnding d = false := hu d (by simp)
    have hu2 : ∀ x ∈ u, isEnding x = false := fun x hx => hu x (by simp [hx])
    rw [List.cons_append, rawSegAux, if_neg (by simp [hd])]
    simp [ih hu2 (buf ++ [d])]

/-- C6 counterexample: the splitter applied to "." emits the
terminator-only segment "." instead of dropping it, contradicting the
claim that segments consisting only of terminator characters are dropped. -/
theorem C6_splitter_keeps_terminator_only_segment :
    split_into_sentences ['.'] = [['.']] ∧
    (∀ c ∈ ['.'], isEnding c = true) ∧ split_into_sentences ['.'] ≠ [] := by
  refine ⟨by decide, by decide, by decide⟩

/-- C6 amended: the splitter scans left to right accumulating a buffer;
each raw segment up to and including a terminator (and the trailing
non-terminated text) is stripped of surrounding whitespace and emitted
unless blank after stripping. The raw segments concatenate back to the
input; each non-final raw segment ends with its terminator preceded only
by non-terminators, and the final raw segment contains no terminator.
Whitespace-only segments are dropped; terminator-only segments are kept. -/
theorem C6_splitter_scan_characterization (text : List Char) :
    split_into_sentences text = ((rawSegments text).map pyStrip).filter (· ≠ []) ∧
    (rawSegments text).flatten = text ∧ SegsWF (rawSegments text) := by
  refine ⟨?_, ?_, rawSegAux_wf text [] (by simp)⟩
  · by_cases h : text = []
    · subst h
      simp [split_into_sentences, rawSegments, rawSegAux, pyStrip]
    · rw [split_into_sentences, if_neg h, rawSegments, splitAux_eq_raw]
  · simpa using rawSegAux_flatten text []

/-- C8 counterexample: the whitespace-only text " " contains no terminator
character, yet the splitter yields zero sentences rather than exactly one
sentence equal to the trimmed input. -/
theorem C8_splitter_blank_input :
    split_into_sentences [' '] = [] ∧
    (∀ c ∈ [' '], isEnding c = false) ∧ pyStrip [' '] = [] := by
  refine ⟨by decide, by decide, by decide⟩

/-- C8 amended: splitting a single already-segmented sentence (nonempty,
equal to its trimmed form, with terminators at most in final position)
yields the one-element list containing the input; splitting any text with
no terminator character whose trimmed form is nonempty yields exactly one
sentence equal to the trimmed input. -/
theorem C8_splitter_idempotent_on_segmented :
    (∀ s : List Char, s ≠ [] → pyStrip s = s →
       (∀ c ∈ s.dropLast, isEnding c = false) → split_into_sentences s = [s]) ∧
    (∀ t : List Char, (∀ c ∈ t, isEnding c = false) → pyStrip t ≠ [] →
       split_into_sentences t = [pyStrip t]) := by
  constructor
  · intro s hs hstrip hdrop
    have hsplit : s.dropLast ++ [s.getLast hs] = s := List.dropLast_append_getLast hs
    by_cases he : isEnding (s.getLast hs)
    · rw [split_into_sentences, if_neg hs, splitAux_eq_raw]
      have hraw : rawSegAux [] s = [s, []] := by
        have := rawSegAux_terminated s.dropLast (s.getLast hs) hdrop (by simpa using he) []
        rw [List.nil_append] at this
        rw [← hsplit]
        simpa using this
      rw [hraw]
      have h0 : pyStrip ([] : List Char) = [] := rfl
      simp [hstrip, h0, hs]
    · have hall : ∀ c ∈ s, isEnding c = false := by
        intro c hc
        rw [← hsplit] at hc
        rcases List.mem_append.1 hc with hc | hc
        · exact hdrop c hc
        · simp only [List.mem_singleton] at hc
          subst hc
          simpa using he
      rw [split_into_sentences, if_neg hs, splitAux_eq_raw]
      rw [rawSegAux_no_ending s hall []]
      simp [hstrip, hs]
  · intro t ht htrim
    have htne : t ≠ [] := by
      intro h
      subst h
      exact htrim (by simp [pyStrip])
    rw [split_into_sentences, if_neg htne, splitAux_eq_raw]
    rw [rawSegAux_no_ending t ht []]
    simp [htrim]

/-- C8 witness: the amended idempotence theorem applied to the concrete
already-terminated sentence "hi." and the untrimmed terminator-free text " a". -/
theorem C8_splitter_idempotent_witness :
    split_into_sentences ['h', 'i', '.'] = [['h', 'i', '.']] ∧
    split_into_sentences [' ', 'a'] = [pyStrip [' ', 'a']] :=
  ⟨C8_splitter_idempotent_on_segmented.1 ['h', 'i', '.'] (by decide) (by decide) (by decide),
   C8_splitter_idempotent_on_segmented.2 [' ', 'a'] (by decide) (by decide)⟩

/-- Transcript-tracking fields of ConversationSession
(final_segments, final_transcript, latest_interim). -/
structure TranscriptState where
  final_segments : List (List Char)
  final_transcript : List Char
  latest_interim : List Char
deriving Repr, DecidableEq

/-- Initial transcript state set in ConversationSession.__init__. -/
def initTranscriptState : TranscriptState :=
  { final_segments := [], final_transcript := [], latest_interim := [] }

/-- ConversationSession._handle_transcript, transcript-tracking part:
a final event with truthy (nonempty) text appends its stripped text to
final_segments, recomputes final_transcript as the space-join of the
nonempty segments, and clears the interim; any other event stores its
stripped text as the latest interim. -/
def handle_transcript (st : TranscriptState) (text : List Char) (is_final : Bool) :
    TranscriptState :=
  if is_final = true ∧ text ≠ [] then
    let segs := st.final_segments ++ [pyStrip text]
    { final_segments := segs
      final_transcript := List.intercalate [' '] (segs.filter (· ≠ []))
      latest_interim := [] }
  else
    { st with latest_interim := pyStrip text }

/-- Session transcript state after a sequence of (text, is_final) events. -/
def processTranscripts (events : List (List Char × Bool)) : TranscriptState :=
  events.foldl (fun st e => handle_transcript st e.1 e.2) initTranscriptState

/-- Stripped texts of the final events with truthy text, as appended by
handle_transcript. -/
def newSegments (events : List (List Char × Bool)) : List (List Char) :=
  (events.filter (fun e => e.2 = true ∧ e.1 ≠ [])).map (fun e => pyStrip e.1)

lemma foldl_handle_transcript_inv (events : List (List Char × Bool)) :
    ∀ (segs : List (List Char)) (it : List Char),
      (events.foldl (fun st e => handle_transcript st e.1 e.2)
          { final_segments := segs
            final_transcript := List.intercalate [' '] (segs.filter (· ≠ []))
            latest_interim := it }).final_segments = segs ++ newSegments events ∧
      (events.foldl (fun st e => handle_transcript st e.1 e.2)
          { final_segments := segs
            final_transcript := List.intercalate [' '] (segs.filter (· ≠ []))
            latest_interim := it }).final_transcript =
        List.intercalate [' '] ((segs ++ newSegments events).filter (· ≠ [])) := by
  induction events with
  | nil => intro segs it; simp [newSegments]
  | cons e rest ih =>
    intro segs it
    by_cases h : e.2 = true ∧ e.1 ≠ []
    · have hstep :
          handle_transcript
              { final_segments := segs
                final_transcript := List.intercalate [' '] (segs.filter (· ≠ []))
                latest_interim := it } e.1 e.2 =
            { final_segments := segs ++ [pyStrip e.1]
              final_transcript :=
                List.intercalate [' '] ((segs ++ [pyStrip e.1]).filter (· ≠ []))
              latest_interim := [] } := by
        rw [handle_transcript, if_pos h]
      have hnew : newSegments (e :: rest) = pyStrip e.1 :: newSegments rest := by
        simp [newSegments, List.filter_cons, h]
      rw [List.foldl_cons, hstep, hnew]
      have := ih (segs ++ [pyStrip e.1]) []
      simpa [List.append_assoc] using this
    · have hstep :
          handle_transcript
              { final_segments := segs
                final_transcript := List.intercalate [' '] (segs.filter (· ≠ []))
                latest_interim := it } e.1 e.2 =
            { final_segments := segs
              final_transcript := List.intercalate [' '] (segs.filter (· ≠ []))
              latest_interim := pyStrip e.1 } := by
        rw [handle_transcript, if_neg h]
      have hnew : newSegments (e :: rest) = newSegments rest := by
        simp [newSegments, List.filter_cons, h]
      rw [List.foldl_cons, hstep, hnew]
      exact ih segs (pyStrip e.1)

lemma newSegments_filter (events : List (List Char × Bool)) :
    (newSegments events).filter (· ≠ []) =
      (((events.filter (fun e => e.2 = true)).map (fun e => pyStrip e.1)).filter (· ≠ [])) := by
  induction events with
  | nil => simp [newSegments]
  | cons e rest ih =>
    by_cases hf : e.2 = true
    · by_cases ht : e.1 = []
      · have h2 : pyStrip e.1 = [] := by rw [ht]; rfl
        simp only [newSegments, List.filter_cons, hf, ht] at ih ⊢
        simpa [h2] using ih
      · by_cases hs : pyStrip e.1 = []
        · simp only [newSegments, List.filter_cons, hf] at ih ⊢
          simpa [hs, ht] using ih
        · simp only [newSegments, List.filter_cons, hf] at ih ⊢
          simpa [hs, ht] using ih
    · simp only [newSegments, List.filter_cons, hf] at ih ⊢
      simpa using ih

/-- C2 counterexample: after the single final event with text " h " the
finalized transcript is the stripped "h", not the raw space-joined text
" h " the claim predicts. -/
theorem C2_transcript_strips_final_text :
    (processTranscripts [([' ', 'h', ' '], true)]).final_transcript = ['h'] ∧
    (processTranscripts [([' ', 'h', ' '], true)]).final_transcript ≠
      List.intercalate [' ']
        (((([([' ', 'h', ' '], true)].filter (fun e => e.2 = true)).map (fun e => e.1)))) := by
  refine ⟨by decide, by decide⟩

/-- C2 amended: after any sequence of transcript events, the finalized
transcript equals the stripped texts of the is_final events, with blank
results dropped, joined by single spaces in arrival order. -/
theorem C2_final_transcript_join (events : List (List Char × Bool)) :
    (processTranscripts events).final_transcript =
      List.intercalate [' ']
        (((events.filter (fun e => e.2 = true)).map (fun e => pyStrip e.1)).filter (· ≠ [])) := by
  have h := (foldl_handle_transcript_inv events [] []).2
  have h0 : initTranscriptState =
      { final_segments := []
        final_transcript := List.intercalate [' '] (([] : List (List Char)).filter (· ≠ []))
        latest_interim := [] } := by
    simp [initTranscriptState, List.intercalate]
  rw [processTranscripts, h0]
  rw [h]
  simpa using congrArg (List.intercalate [' ']) (newSegments_filter events)

/-- ConversationState enum (app/models/schemas.py). -/
inductive ConvState
  | idle
  | listening
  | processing
  | speaking
  | error
deriving Repr, DecidableEq

/-- Outbound events a session sends to the gateway websocket. -/
inductive Event
  | transcript (text : List Char) (is_final : Bool)
  | ragResponse (text : List Char)
  | audioChunk (data : Nat)
  | complete
  | error (code : String)
  | stateUpdate (s : ConvState)
deriving Repr, DecidableEq

/-- RAGQueryResponse fields used by the pipeline. -/
structure RagResponse where
  answer : List Char
  processing_time_ms : Nat
deriving Repr, DecidableEq

/-- Result of one run of ConversationSession._process_conversation:
the ordered outbound event trace, the session state it leaves behind,
and whether the retrieval query was issued. -/
structure PipelineResult where
  events : List Event
  finalState : ConvState
  ragCalled : Bool
deriving Repr, DecidableEq

/-- RAGClient.stream_response_sentences applied to a successful answer:
splits the answer and yields each stripped sentence when nonempty. -/
def streamSentences (answer : List Char) : List (List Char) :=
  (split_into_sentences answer).filterMap
    (fun s => if pyStrip s = [] then none else some (pyStrip s))

/-- ConversationSession._process_sentence event trace: relay the sentence,
transition to SPEAKING, then relay the audio chunks streamed by the TTS
client (modelled by the oracle tts, which maps a sentence to the chunk
identifiers the synthesis stream yields for it). -/
def processSentenceEvents (tts : List Char → List Nat) (s : List Char) : List Event :=
  Event.ragResponse s :: Event.stateUpdate ConvState.speaking ::
    (tts s).map (fun c => Event.audioChunk c)

/-- TTSClient.synthesize_sentences event trace: skip sentences whose strip
is blank, stream the chunks of the rest in order. -/
def synthesizeSentencesEvents (tts : List Char → List Nat)
    (sentences : List (List Char)) : List Event :=
  sentences.flatMap
    (fun s => if pyStrip s = [] then [] else (tts s).map (fun c => Event.audioChunk c))

/-- ConversationSession._process_conversation (lines 193-263), as the pure
event trace it produces after the grace-interval sleep, given the
transcript state at that point, the streaming-mode flag, the retrieval
outcome (none models a timeout, transport error, or non-200 status) and
the TTS chunk oracle. _send_error emits the error event and then the
transition to ERROR; the success path emits complete and then the
transition to IDLE. In streaming mode a failed query makes
stream_response_sentences yield nothing and the loop body never runs. -/
def process_conversation (streaming : Bool) (finalT latestInterim : List Char)
    (rag : Option RagResponse) (tts : List Char → List Nat) : PipelineResult :=
  let ft := if finalT = [] ∧ latestInterim ≠ [] then latestInterim else finalT
  if ft = [] then
    { events := [Event.error "no_transcript", Event.stateUpdate ConvState.error]
      finalState := ConvState.error
      ragCalled := false }
  else if streaming then
    let sentences := match rag with
      | none => []
      | some r => streamSentences r.answer
    { events := sentences.flatMap (processSentenceEvents tts) ++
        [Event.complete, Event.stateUpdate ConvState.idle]
      finalState := ConvState.idle
      ragCalled := true }
  else
    match rag with
    | none =>
      { events := [Event.error "rag_failed", Event.stateUpdate ConvState.error]
        finalState := ConvState.error
        ragCalled := true }
    | some r =>
      { events := Event.ragResponse r.answer :: Event.stateUpdate ConvState.speaking ::
          synthesizeSentencesEvents tts (split_into_sentences r.answer) ++
          [Event.complete, Event.stateUpdate ConvState.idle]
        finalState := ConvState.idle
        ragCalled := true }

/-- Control-state fields of ConversationSession touched by the inbound
audio entry points. -/
structure SessionCtl where
  current_state : ConvState
  audio_buffer : List Nat
  asr_connected : Bool
  asr_task_running : Bool
  processing_spawned : Bool
deriving Repr, DecidableEq

/-- ConversationSession.process_audio_chunk: rejected outside LISTENING;
otherwise the chunk is buffered, the ASR client is lazily connected
(starting the transcript-listening task on a fresh connection), and the
chunk is forwarded, the returned flag being the forwarding outcome. The
oracles connectOk and sendOk model the ASR client call results. -/
def process_audio_chunk (connectOk sendOk : Bool) (st : SessionCtl) (data : Nat) :
    Bool × SessionCtl :=
  if st.current_state ≠ ConvState.listening then (false, st)
  else
    let st1 := { st with audio_buffer := st.audio_buffer ++ [data] }
    if st1.asr_connected then (sendOk, st1)
    else if connectOk then
      (sendOk, { st1 with asr_connected := true, asr_task_running := true })
    else (false, st1)

/-- ConversationSession.end_audio_input: rejected outside LISTENING;
otherwise transitions to PROCESSING and spawns the turn pipeline task. -/
def end_audio_input (st : SessionCtl) : Bool × SessionCtl :=
  if st.current_state ≠ ConvState.listening then (false, st)
  else
    (true, { st with current_state := ConvState.processing, processing_spawned := true })

lemma complete_not_mem_sentence_loop (tts : List Char → List Nat)
    (sentences : List (List Char)) :
    Event.complete ∉ sentences.flatMap (processSentenceEvents tts) := by
  intro h
  rcases List.mem_flatMap.1 h with ⟨s, _, hmem⟩
  simp [processSentenceEvents] at hmem

lemma idle_update_not_mem_sentence_loop (tts : List Char → List Nat)
    (sentences : List (List Char)) :
    Event.stateUpdate ConvState.idle ∉ sentences.flatMap (processSentenceEvents tts) := by
  intro h
  rcases List.mem_flatMap.1 h with ⟨s, _, hmem⟩
  simp [processSentenceEvents] at hmem

lemma mem_synthesizeSentencesEvents (tts : List Char → List Nat)
    (sentences : List (List Char)) (e : Event)
    (h : e ∈ synthesizeSentencesEvents tts sentences) : ∃ c, e = Event.audioChunk c := by
  rcases List.mem_flatMap.1 h with ⟨s, _, hmem⟩
  by_cases hs : pyStrip s = []
  · simp [hs] at hmem
  · rw [if_neg hs] at hmem
    rcases List.mem_map.1 hmem with ⟨c, _, hc⟩
    exact ⟨c, hc.symm⟩

/-- C1 counterexample: with no finalized segment and no interim after the
grace interval, the pipeline transitions to ERROR, not IDLE; no
state_update(IDLE) is emitted. -/
theorem C1_no_transcript_reaches_error_state :
    (process_conversation false [] [] (some { answer := ['x'], processing_time_ms := 0 })
        (fun _ => [])).finalState ≠ ConvState.idle ∧
    Event.stateUpdate ConvState.idle ∉
      (process_conversation false [] [] (some { answer := ['x'], processing_time_ms := 0 })
        (fun _ => [])).events ∧
    (process_conversation false [] [] (some { answer := ['x'], processing_time_ms := 0 })
        (fun _ => [])).events =
      [Event.error "no_transcript", Event.stateUpdate ConvState.error] := by
  refine ⟨by decide, by decide, by decide⟩

/-- C1 amended: when neither a finalized segment nor an interim transcript
exists after the grace interval, the pipeline emits exactly the
no_transcript error followed by the transition to the ERROR state (not
IDLE), and never issues the retrieval query — in both retrieval modes. -/
theorem C1_no_transcript_amended (streaming : Bool) (rag : Option RagResponse)
    (tts : List Char → List Nat) :
    process_conversation streaming [] [] rag tts =
      { events := [Event.error "no_transcript", Event.stateUpdate ConvState.error]
        finalState := ConvState.error
        ragCalled := false } := by
  simp [process_conversation]

/-- C4 counterexample: in sentence-streaming mode a failed retrieval query
produces no rag_failed error at all — the turn just completes. -/
theorem C4_streaming_rag_failure_silent :
    (process_conversation true ['h'] [] none (fun _ => [])).events =
      [Event.complete, Event.stateUpdate ConvState.idle] ∧
    Event.error "rag_failed" ∉ (process_conversation true ['h'] [] none (fun _ => [])).events := by
  refine ⟨by decide, by decide⟩

/-- C4 amended: when the retrieval query fails, in single-shot mode the
pipeline emits rag_failed and aborts before any synthesis (no audio, no
complete); in sentence-streaming mode the failed query yields an empty
sentence stream, so no synthesis occurs and the turn completes without
any error event. -/
theorem C4_rag_failure_amended (finalT latestInterim : List Char)
    (tts : List Char → List Nat) (h : finalT ≠ [] ∨ latestInterim ≠ []) :
    process_conversation false finalT latestInterim none tts =
      { events := [Event.error "rag_failed", Event.stateUpdate ConvState.error]
        finalState := ConvState.error
        ragCalled := true } ∧
    process_conversation true finalT latestInterim none tts =
      { events := [Event.complete, Event.stateUpdate ConvState.idle]
        finalState := ConvState.idle
        ragCalled := true } ∧
    (∀ c, Event.audioChunk c ∉ (process_conversation false finalT latestInterim none tts).events) ∧
    (∀ c, Event.audioChunk c ∉ (process_conversation true finalT latestInterim none tts).events) ∧
    Event.complete ∉ (process_conversation false finalT latestInterim none tts).events ∧
    (∀ code, Event.error code ∉ (process_conversation true finalT latestInterim none tts).events) := by
  have hft : (if finalT = [] ∧ latestInterim ≠ [] then latestInterim else finalT) ≠ [] := by
    rcases h with h | h
    · rw [if_neg]
      · exact h
      · rintro ⟨hf, _⟩
        exact h hf
    · by_cases hf : finalT = []
      · rwa [if_pos ⟨hf, h⟩]
      · rwa [if_neg (fun hc => hf hc.1)]
  refine ⟨?_, ?_, ?_, ?_, ?_, ?_⟩ <;> simp [process_conversation, hft]

/-- C4 witness: the amended retrieval-failure theorem at a concrete
one-character transcript, with both modes evaluated. -/
theorem C4_rag_failure_witness :
    process_conversation false ['h'] [] none (fun _ => []) =
      { events := [Event.error "rag_failed", Event.stateUpdate ConvState.error]
        finalState := ConvState.error
        ragCalled := true } ∧
    process_conversation true ['h'] [] none (fun _ => []) =
      { events := [Event.complete, Event.stateUpdate ConvState.idle]
        finalState := ConvState.idle
        ragCalled := true } :=
  ⟨(C4_rag_failure_amended ['h'] [] (fun _ => []) (Or.inl (by decide))).1,
   (C4_rag_failure_amended ['h'] [] (fun _ => []) (Or.inl (by decide))).2.1⟩

/-- TTS oracle yielding one chunk per sentence, used by concrete traces. -/
def ttsOne : List Char → List Nat := fun _ => [7]

/-- C7 counterexample: a successful single-shot turn ends with
state_update(IDLE); the complete event is only second to last. -/
theorem C7_idle_update_after_complete :
    (process_conversation false ['h'] []
        (some { answer := ['o', 'k', '.'], processing_time_ms := 5 }) ttsOne).events =
      [Event.ragResponse ['o', 'k', '.'], Event.stateUpdate ConvState.speaking,
       Event.audioChunk 7, Event.complete, Event.stateUpdate ConvState.idle] ∧
    (process_conversation false ['h'] []
        (some { answer := ['o', 'k', '.'], processing_time_ms := 5 }) ttsOne).events.getLast? ≠
      some Event.complete := by
  refine ⟨by decide, by decide⟩

/-- C7 amended: in every completed turn the trace ends with the complete
event immediately followed by the closing state_update(IDLE); complete is
the last event apart from that closing state update, and neither event
occurs earlier in the turn. -/
theorem C7_complete_second_to_last (streaming : Bool) (finalT latestInterim : List Char)
    (rag : Option RagResponse) (tts : List Char → List Nat)
    (h1 : finalT ≠ [] ∨ latestInterim ≠ []) (h2 : streaming = true ∨ rag.isSome = true) :
    ∃ pre, (process_conversation streaming finalT latestInterim rag tts).events =
        pre ++ [Event.complete, Event.stateUpdate ConvState.idle] ∧
      Event.complete ∉ pre ∧ Event.stateUpdate ConvState.idle ∉ pre := by
  have hft : (if finalT = [] ∧ latestInterim ≠ [] then latestInterim else finalT) ≠ [] := by
    rcases h1 with h | h
    · rw [if_neg]
      · exact h
      · rintro ⟨hf, _⟩
        exact h hf
    · by_cases hf : finalT = []
      · rwa [if_pos ⟨hf, h⟩]
      · rwa [if_neg (fun hc => hf hc.1)]
  by_cases hs : streaming = true
  · subst hs
    refine ⟨(match rag with
        | none => []
        | some r => streamSentences r.answer).flatMap (processSentenceEvents tts), ?_, ?_, ?_⟩
    · simp [process_conversation, hft]
    · exact complete_not_mem_sentence_loop tts _
    · exact idle_update_not_mem_sentence_loop tts _
  · have hsf : streaming = false := by
      cases streaming
      · rfl
      · exact absurd rfl hs
    subst hsf
    rcases h2 with h2 | h2
    · exact absurd h2 hs
    · rcases rag with _ | r
      · simp at h2
      · refine ⟨Event.ragResponse r.answer :: Event.stateUpdate ConvState.speaking ::
          synthesizeSentencesEvents tts (split_into_sentences r.answer), ?_, ?_, ?_⟩
        · simp [process_conversation, hft]
        · intro hmem
          simp only [List.mem_cons] at hmem
          rcases hmem with h | h | h
          · exact Event.noConfusion h
          · exact Event.noConfusion h
          · rcases mem_synthesizeSentencesEvents tts _ _ h with ⟨c, hc⟩
            exact Event.noConfusion hc
        · intro hmem
          simp only [List.mem_cons] at hmem
          rcases hmem with h | h | h
          · exact Event.noConfusion h
          · rw [Event.stateUpdate.injEq] at h
            exact ConvState.noConfusion h
          · rcases mem_synthesizeSentencesEvents tts _ _ h with ⟨c, hc⟩
            exact Event.noConfusion hc

/-- C7 witness: the amended last-event theorem at the concrete successful
single-shot turn used by the counterexample trace. -/
theorem C7_complete_second_to_last_witness :
    ∃ pre, (process_conversation false ['h'] []
        (some { answer := ['o', 'k', '.'], processing_time_ms := 5 }) ttsOne).events =
        pre ++ [Event.complete, Event.stateUpdate ConvState.idle] ∧
      Event.complete ∉ pre ∧ Event.stateUpdate ConvState.idle ∉ pre :=
  C7_complete_second_to_last false ['h'] []
    (some { answer := ['o', 'k', '.'], processing_time_ms := 5 }) ttsOne
    (Or.inl (by decide)) (Or.inr (by decide))

/-- C9: outside LISTENING both inbound audio entry points fail and leave
the session control state (state, buffer, clients, spawned pipeline)
completely unchanged. -/
theorem C9_reject_outside_listening (connectOk sendOk : Bool) (st : SessionCtl)
    (data : Nat) (h : st.current_state ≠ ConvState.listening) :
    process_audio_chunk connectOk sendOk st data = (false, st) ∧
    end_audio_input st = (false, st) := by
  refine ⟨?_, ?_⟩
  · rw [process_audio_chunk, if_pos h]
  · rw [end_audio_input, if_pos h]

/-- Concrete idle session control state. -/
def idleCtl : SessionCtl :=
  { current_state := ConvState.idle
    audio_buffer := []
    asr_connected := false
    asr_task_running := false
    processing_spawned := false }

/-- C9 witness: the rejection theorem at a concrete IDLE session. -/
theorem C9_reject_witness :
    process_audio_chunk true true idleCtl 3 = (false, idleCtl) ∧
    end_audio_input idleCtl = (false, idleCtl) :=
  C9_reject_outside_listening true true idleCtl 3 (by decide)

/-- ConversationTurn fields (app/models/schemas.py). -/
structure ConvTurn where
  user_query : List Char
  assistant_response : List Char
  processing_time_ms : Nat
deriving Repr, DecidableEq

/-- SessionData fields used by the registry (app/models/schemas.py). -/
structure SessionData where
  session_id : String
  current_state : ConvState
  conversation_history : List ConvTurn
  created_at : Nat
  last_activity : Nat
deriving Repr, DecidableEq

/-- SessionManager.sessions: the process-wide session table, as an
insertion-ordered association list keyed by session id. -/
abbrev Registry := List (String × SessionData)

/-- Dictionary lookup self.sessions.get(session_id): the value of the
first entry keyed by sid. -/
def lookupSession : Registry → String → Option SessionData
  | [], _ => none
  | e :: rest, sid => if e.1 = sid then some e.2 else lookupSession rest sid

/-- The in-place mutation session.last_activity = datetime.utcnow(). -/
def touch (now : Nat) (s : SessionData) : SessionData := { s with last_activity := now }

/-- Registry after mutating the entry for sid in place. -/
def touchEntry (reg : Registry) (now : Nat) (sid : String) : Registry :=
  reg.map (fun e => if e.1 = sid then (e.1, touch now e.2) else e)

/-- SessionManager.get_session: looks the session up, refreshes its
last_activity when found (no expiry check of any kind), and returns it. -/
def get_session (reg : Registry) (now : Nat) (sid : String) :
    Option SessionData × Registry :=
  match lookupSession reg sid with
  | none => (none, reg)
  | some s => (some (touch now s), touchEntry reg now sid)

/-- SessionManager.get_conversation_history: returns a copy of the found
session's history after refreshing last_activity; empty list when absent. -/
def get_conversation_history (reg : Registry) (now : Nat) (sid : String) :
    List ConvTurn × Registry :=
  match lookupSession reg sid with
  | none => ([], reg)
  | some s => (s.conversation_history, touchEntry reg now sid)

/-- One pass of SessionManager._cleanup_expired_sessions: delete every
session with now - last_activity > session_timeout_seconds. -/
def cleanup_expired_sessions (reg : Registry) (now timeout : Nat) : Registry :=
  reg.filter (fun e => now - e.2.last_activity ≤ timeout)

lemma lookup_touchEntry (reg : Registry) (now : Nat) (sid sid2 : String) :
    lookupSession (touchEntry reg now sid) sid2 =
      if sid2 = sid then (lookupSession reg sid2).map (touch now)
      else lookupSession reg sid2 := by
  induction reg with
  | nil => by_cases h : sid2 = sid <;> simp [lookupSession, touchEntry, h]
  | cons e rest ih =>
    rw [touchEntry, List.map_cons]
    by_cases he : e.1 = sid
    · rw [if_pos he]
      by_cases h2 : e.1 = sid2
      · have hs : sid2 = sid := by rw [← h2, he]
        simp only [lookupSession, h2, if_pos rfl, hs, if_pos rfl]
        simp
      · have hs : ¬ sid2 = sid := fun hc => h2 (by rw [hc, he])
        simp only [lookupSession, if_neg h2, if_neg hs]
        have := ih
        rw [if_neg hs] at this
        exact this
    · rw [if_neg he]
      by_cases h2 : e.1 = sid2
      · have hs : ¬ sid2 = sid := fun hc => he (by rw [h2, hc])
        simp only [lookupSession, if_pos h2, if_neg hs]
      · simp only [lookupSession, if_neg h2]
        exact ih

/-- Concrete session last active at time 0. -/
def s0 : SessionData :=
  { session_id := "a"
    current_state := ConvState.idle
    conversation_history := []
    created_at := 0
    last_activity := 0 }

/-- Concrete registry holding only s0. -/
def reg0 : Registry := [("a", s0)]

/-- C5 counterexample: with a 300s timeout at time 400, the stored session
is 400s inactive, yet get_session returns it (refreshed) instead of
deleting it — no expiry check happens on lookup. -/
theorem C5_lookup_returns_expired_session :
    lookupSession reg0 "a" = some s0 ∧
    400 - s0.last_activity > 300 ∧
    (get_session reg0 400 "a").1 = some (touch 400 s0) ∧
    (get_session reg0 400 "a").1 ≠ none := by
  refine ⟨by decide, by decide, by decide, by decide⟩

/-- C5 amended: get_session returns any present session regardless of its
inactivity, refreshing last_activity; expired sessions are removed only by
the periodic cleanup sweep, which retains a session exactly when
now - last_activity does not exceed the timeout. -/
theorem C5_expiry_only_in_sweep (reg : Registry) (now timeout : Nat) (sid : String)
    (s : SessionData) :
    (lookupSession reg sid = some s → (get_session reg now sid).1 = some (touch now s)) ∧
    ((sid, s) ∈ reg →
      ((sid, s) ∈ cleanup_expired_sessions reg now timeout ↔
        now - s.last_activity ≤ timeout)) := by
  constructor
  · intro h
    simp [get_session, h]
  · intro hmem
    constructor
    · intro h2
      have := (List.mem_filter.1 h2).2
      simpa using this
    · intro h2
      exact List.mem_filter.2 ⟨hmem, by simpa using h2⟩

/-- C5 witness: the amended theorem at the concrete expired session s0,
showing it is returned by lookup yet dropped by the sweep. -/
theorem C5_expiry_only_in_sweep_witness :
    (get_session reg0 400 "a").1 = some (touch 400 s0) ∧
    (("a", s0) ∈ cleanup_expired_sessions reg0 400 300 ↔ 400 - s0.last_activity ≤ 300) :=
  ⟨(C5_expiry_only_in_sweep reg0 400 300 "a" s0).1 (by decide),
   (C5_expiry_only_in_sweep reg0 400 300 "a" s0).2 (by decide)⟩

/-- C10: for a present id the read operations get_session and
get_conversation_history return the session data and its history, set only
that session's last_activity to now (every other field preserved), leave
every other registry entry untouched, and both leave the registry in the
same state; for an absent id they return none / the empty list and leave
the registry unchanged. -/
theorem C10_read_ops_frame (reg : Registry) (now : Nat) (sid : String) :
    (lookupSession reg sid = none →
       get_session reg now sid = (none, reg) ∧
       get_conversation_history reg now sid = ([], reg)) ∧
    (∀ s, lookupSession reg sid = some s →
       (get_session reg now sid).1 = some (touch now s) ∧
       (get_conversation_history reg now sid).1 = s.conversation_history ∧
       (get_session reg now sid).2 = (get_conversation_history reg now sid).2 ∧
       (touch now s).session_id = s.session_id ∧
       (touch now s).current_state = s.current_state ∧
       (touch now s).conversation_history = s.conversation_history ∧
       (touch now s).created_at = s.created_at ∧
       (touch now s).last_activity = now ∧
       lookupSession (get_session reg now sid).2 sid = some (touch now s) ∧
       (∀ sid2, sid2 ≠ sid →
          lookupSession (get_session reg now sid).2 sid2 = lookupSession reg sid2)) := by
  constructor
  · intro h
    constructor
    · simp [get_session, h]
    · simp [get_conversation_history, h]
  · intro s h
    refine ⟨by simp [get_session, h], by simp [get_conversation_history, h],
      by simp [get_session, get_conversation_history, h], rfl, rfl, rfl, rfl, rfl, ?_, ?_⟩
    · have h2 : (get_session reg now sid).2 = touchEntry reg now sid := by
        simp [get_session, h]
      rw [h2, lookup_touchEntry, if_pos rfl, h]
      rfl
    · intro sid2 hne
      have h2 : (get_session reg now sid).2 = touchEntry reg now sid := by
        simp [get_session, h]
      rw [h2, lookup_touchEntry, if_neg hne]

/-- C10 witness: the frame theorem at the concrete registry reg0, for the
absent id "b" and the present id "a". -/
theorem C10_read_ops_frame_witness :
    get_session reg0 400 "b" = (none, reg0) ∧
    (get_session reg0 400 "a").1 = some (touch 400 s0) :=
  ⟨((C10_read_ops_frame reg0 400 "b").1 (by decide)).1,
   ((C10_read_ops_frame reg0 400 "a").2 s0 (by decide)).1⟩

/-- Core retry loop of StreamingTTSService._synthesize_with_retry
(TTS_API/app/services/streaming_tts.py): attemptRes i is the payload the
i-th synthesis attempt returns, or none when it raises. The loop runs
attempt indices i, i+1, ... while fuel remains, sleeping
base * 2 ^ attempt between failed attempts (recorded in the delay list),
and returns the empty payload when every attempt fails. Result:
(payload, attempts used, backoff delays slept). -/
def retryGo (attemptRes : Nat → Option (List Nat)) (base : Nat) :
    Nat → Nat → List Nat × Nat × List Nat
  | _, 0 => ([], 0, [])
  | i, rem + 1 =>
    match attemptRes i with
    | some a => (a, 1, [])
    | none =>
      if rem = 0 then ([], 1, [])
      else
        ((retryGo attemptRes base (i + 1) rem).1,
         (retryGo attemptRes base (i + 1) rem).2.1 + 1,
         base * 2 ^ i :: (retryGo attemptRes base (i + 1) rem).2.2)

/-- StreamingTTSService._synthesize_with_retry: up to max_retries attempts
starting at attempt index 0. -/
def synthesize_with_retry (attemptRes : Nat → Option (List Nat)) (base maxR : Nat) :
    List Nat × Nat × List Nat :=
  retryGo attemptRes base 0 maxR

/-- Items yielded by StreamingTTSService.synthesize_streaming. -/
inductive TTSItem
  | metadata (total_chunks : Nat)
  | audio (data : List Nat)
  | complete (successful failed : Nat)
  | error (detail : String)
deriving Repr, DecidableEq

/-- The per-sentence loop of StreamingTTSService.synthesize_streaming:
a sentence whose synthesis result is empty is counted failed and skipped;
otherwise its audio is yielded and counted successful; the loop always
ends with the complete item carrying both counters. -/
def streamLoop (synth : List Char → List Nat) :
    List (List Char) → Nat → Nat → List TTSItem
  | [], succ, failed => [TTSItem.complete succ failed]
  | s :: rest, succ, failed =>
    if synth s = [] then streamLoop synth rest succ (failed + 1)
    else TTSItem.audio (synth s) :: streamLoop synth rest (succ + 1) failed

/-- StreamingTTSService.synthesize_streaming from the sentence list
onward (text chunking happens before this loop): metadata first, then the
per-sentence loop; an empty sentence list yields only the error item. -/
def synthesize_streaming (attempts : List Char → Nat → Option (List Nat))
    (base maxR : Nat) (sentences : List (List Char)) : List TTSItem :=
  if sentences = [] then [TTSItem.error "No valid sentences found in text"]
  else
    TTSItem.metadata sentences.length ::
      streamLoop (fun s => (synthesize_with_retry (attempts s) base maxR).1) sentences 0 0

lemma retryGo_attempts_le (f : Nat → Option (List Nat)) (base : Nat) :
    ∀ rem i, (retryGo f base i rem).2.1 ≤ rem := by
  intro rem
  induction rem with
  | zero => intro i; simp [retryGo]
  | succ m ih =>
    intro i
    rw [retryGo]
    cases f i with
    | some a => simp
    | none =>
      by_cases hm : m = 0
      · simp [hm]
      · simpa [hm] using Nat.succ_le_succ (ih (i + 1))

lemma retryGo_attempts_pos (f : Nat → Option (List Nat)) (base : Nat) :
    ∀ rem i, 1 ≤ rem → 1 ≤ (retryGo f base i rem).2.1 := by
  intro rem
  cases rem with
  | zero => intro i h; omega
  | succ m =>
    intro i _
    rw [retryGo]
    cases f i with
    | some a => simp
    | none =>
      by_cases hm : m = 0
      · simp [hm]
      · simp [hm]

lemma retryGo_delays (f : Nat → Option (List Nat)) (base : Nat) :
    ∀ rem i, (retryGo f base i rem).2.2 =
      (List.range ((retryGo f base i rem).2.1 - 1)).map (fun k => base * 2 ^ (i + k)) := by
  intro rem
  induction rem with
  | zero => intro i; simp [retryGo]
  | succ m ih =>
    intro i
    rw [retryGo]
    cases f i with
    | some a => simp
    | none =>
      by_cases hm : m = 0
      · simp [hm]
      · rw [if_neg hm]
        have hpos : 1 ≤ (retryGo f base (i + 1) m).2.1 :=
          retryGo_attempts_pos f base m (i + 1) (Nat.one_le_iff_ne_zero.2 hm)
        have hn : (retryGo f base (i + 1) m).2.1 + 1 - 1 =
            ((retryGo f base (i + 1) m).2.1 - 1) + 1 := by omega
        show base * 2 ^ i :: (retryGo f base (i + 1) m).2.2 = _
        rw [hn, List.range_succ_eq_map, List.map_cons, List.map_map, ih (i + 1)]
        refine congrArg₂ _ (by rw [Nat.add_zero]) ?_
        refine List.map_congr_left ?_
        intro k _
        have h3 : i + 1 + k = i + (k + 1) := by omega
        simp [Function.comp, h3]

lemma retryGo_all_fail (f : Nat → Option (List Nat)) (base : Nat) (hf : ∀ j, f j = none) :
    ∀ rem i, (retryGo f base i rem).1 = [] := by
  intro rem
  induction rem with
  | zero => intro i; simp [retryGo]
  | succ m ih =>
    intro i
    rw [retryGo, hf i]
    by_cases hm : m = 0
    · simp [hm]
    · simpa [hm] using ih (i + 1)

lemma streamLoop_eq (synth : List Char → List Nat) :
    ∀ (l : List (List Char)) (succ failed : Nat),
      streamLoop synth l succ failed =
        (l.filterMap (fun s =>
          if synth s = [] then none else some (TTSItem.audio (synth s)))) ++
        [TTSItem.complete (succ + (l.filter (fun s => synth s ≠ [])).length)
          (failed + (l.filter (fun s => synth s = [])).length)] := by
  intro l
  induction l with
  | nil => intro succ failed; simp [streamLoop]
  | cons s rest ih =>
    intro succ failed
    by_cases hs : synth s = []
    · rw [streamLoop, if_pos hs, ih]
      simp [List.filterMap_cons, List.filter_cons, hs]
      omega
    · rw [streamLoop, if_neg hs, ih]
      simp [List.filterMap_cons, List.filter_cons, hs]
      omega

lemma filter_length_split (f : List Char → List Nat) :
    ∀ l : List (List Char),
      (l.filter (fun s => f s ≠ [])).length + (l.filter (fun s => f s = [])).length = l.length := by
  intro l
  induction l with
  | nil => simp
  | cons s rest ih =>
    by_cases hp : f s = []
    · simp [List.filter_cons, hp, decide_not] at ih ⊢
      omega
    · simp [List.filter_cons, hp, decide_not] at ih ⊢
      omega

/-- C3: each sentence's synthesis uses at most max_retries attempts; the
backoff delays slept are exactly base * 2 ^ attempt for the failed
attempts before the last one tried; a sentence whose every attempt fails
produces the empty payload, is skipped (counted failed, no audio yielded)
while every other sentence's audio is still yielded in order; and the
stream still ends with the complete item whose success and failure counts
sum to the number of sentences. -/
theorem C3_retry_backoff_and_skip (attempts : List Char → Nat → Option (List Nat))
    (base maxR : Nat) (sentences : List (List Char)) :
    (∀ s, (synthesize_with_retry (attempts s) base maxR).2.1 ≤ maxR) ∧
    (∀ s, (synthesize_with_retry (attempts s) base maxR).2.2 =
      (List.range ((synthesize_with_retry (attempts s) base maxR).2.1 - 1)).map
        (fun k => base * 2 ^ k)) ∧
    (∀ s, (∀ j, attempts s j = none) →
      (synthesize_with_retry (attempts s) base maxR).1 = []) ∧
    (sentences ≠ [] →
      synthesize_streaming attempts base maxR sentences =
        TTSItem.metadata sentences.length ::
        (sentences.filterMap (fun s =>
          if (synthesize_with_retry (attempts s) base maxR).1 = [] then none
          else some (TTSItem.audio (synthesize_with_retry (attempts s) base maxR).1))) ++
        [TTSItem.complete
          (sentences.filter
            (fun s => (synthesize_with_retry (attempts s) base maxR).1 ≠ [])).length
          (sentences.filter
            (fun s => (synthesize_with_retry (attempts s) base maxR).1 = [])).length]) ∧
    (sentences.filter
        (fun s => (synthesize_with_retry (attempts s) base maxR).1 ≠ [])).length +
      (sentences.filter
        (fun s => (synthesize_with_retry (attempts s) base maxR).1 = [])).length =
      sentences.length := by
  refine ⟨?_, ?_, ?_, ?_, ?_⟩
  · intro s
    exact retryGo_attempts_le (attempts s) base maxR 0
  · intro s
    simpa [synthesize_with_retry] using retryGo_delays (attempts s) base maxR 0
  · intro s h
    exact retryGo_all_fail (attempts s) base h maxR 0
  · intro hne
    rw [synthesize_streaming, if_neg hne, streamLoop_eq]
    simp
  · exact filter_length_split (fun s => (synthesize_with_retry (attempts s) base maxR).1) sentences

/-- Concrete attempt oracle: sentence "a" always raises; sentence "b"
raises on attempts 0 and 1 and succeeds on attempt 2. -/
def attempts0 : List Char → Nat → Option (List Nat) :=
  fun s i => if s = ['b'] ∧ 2 ≤ i then some [9] else none

/-- C3 witness: the retry theorem at the concrete oracle attempts0 with
max_retries 3 and base delay 500: sentence "a" exhausts its retries and is
skipped, sentence "b" succeeds after two backoff sleeps, and the stream
completes with one success and one failure. -/
theorem C3_retry_backoff_witness :
    (synthesize_with_retry (attempts0 ['a']) 500 3).1 = [] ∧
    synthesize_streaming attempts0 500 3 [['a'], ['b']] =
      [TTSItem.metadata 2, TTSItem.audio [9], TTSItem.complete 1 1] ∧
    (synthesize_with_retry (attempts0 ['b']) 500 3).2.2 = [500, 1000] := by
  have hall : ∀ j, attempts0 ['a'] j = none := by
    intro j
    rw [attempts0, if_neg]
    rintro ⟨h, _⟩
    exact absurd h (by decide)
  refine ⟨(C3_retry_backoff_and_skip attempts0 500 3 [['a'], ['b']]).2.2.1 ['a'] hall, ?_, ?_⟩
  · rw [(C3_retry_backoff_and_skip attempts0 500 3 [['a'], ['b']]).2.2.2.1 (by decide)]
    decide
  · rw [(C3_retry_backoff_and_skip attempts0 500 3 [['a'], ['b']]).2.1 ['b']]
    decide

end Orch











